import Mathlib

/-!
Verification of the capability-normalization core of the cognite-utils
repository: the key canonicalizer, capability-set builder, matrix builder,
removal-policy engine and backup/restore engine
(src/utils/cognite_groups_export.py, src/utils/remove_capabilities.py,
src/utils/group_backup_restore.py).

Modelling conventions for the Python source:
- Python strings are Lean String values; comparison, lower-casing, strip and
  startswith are modelled by transparent functions on the underlying character
  list (Python compares strings by code points; the keys handled here are
  ASCII, so ASCII lower-casing and whitespace stripping coincide with the
  Python behaviour on the data of interest).
- Heterogeneous grant, action and scope objects are modelled by structures
  recording exactly the observable features the code probes: the structural
  type name, the optional attributes looked up with hasattr or getattr, and
  the textual representation used as fallback. An attribute that is absent
  (or None where the code treats None like absence) is an Option.none field.
  Objects without a custom truth value are truthy in Python, so a present
  scope object is treated as truthy.
- Python dict iteration order is insertion order; a dict is modelled as a
  list of pairs. A Python set is modelled as a list used only through
  membership, and sorted(s) as an insertion sort by the code-point order.
-/

namespace Cognite

/-! ## String primitives modelling Python string operations -/

/-- Code-point (strict) lexicographic comparison of character lists, as Python
compares strings. -/
def strLtB : List Char → List Char → Bool
  | [], [] => false
  | [], _ :: _ => true
  | _ :: _, [] => false
  | a :: as, b :: bs =>
    if a.toNat < b.toNat then true
    else if b.toNat < a.toNat then false
    else strLtB as bs

/-- Python string less-than. -/
def pyLt (s t : String) : Bool := strLtB s.data t.data

/-- Python string less-or-equal, the order used by sorted(). -/
def keyLe (a b : String) : Prop := pyLt b a = false

instance : DecidableRel keyLe := fun a b => instDecidableEqBool (pyLt b a) false

/-- Python str.lower restricted to ASCII, which the capability keys are. -/
def pyLower (s : String) : String := String.mk (s.data.map Char.toLower)

/-- Python str.strip: drop leading and trailing whitespace. -/
def pyStrip (s : String) : String :=
  String.mk (((s.data.dropWhile Char.isWhitespace).reverse.dropWhile Char.isWhitespace).reverse)

/-- startsList s p is Python s.startswith(p) on character lists. -/
def startsList : List Char → List Char → Bool
  | _, [] => true
  | [], _ :: _ => false
  | c :: cs, p :: ps => if c = p then startsList cs ps else false

/-- Python s.startswith(p). -/
def pyStarts (s p : String) : Bool := startsList s.data p.data

/-- Python s.endswith(p). -/
def pyEnds (s p : String) : Bool := startsList s.data.reverse p.data.reverse

/-- Python sep.join(parts). -/
def joinWith (sep : String) : List String → String
  | [] => ""
  | x :: xs => xs.foldl (fun acc y => acc ++ sep ++ y) x

/-- Python substring containment test for the single character colon,
modelling the check colon-not-in-r of the removal engine. -/
def hasColon (r : String) : Bool := r.data.any (fun c => c = ':')

/-- One step of Python str.replace: fuel-indexed so that the kernel can
evaluate it (the fuel is always the length of the scanned list). -/
def pyReplaceAux (pat rep : List Char) : Nat → List Char → List Char
  | 0, l => l
  | _ + 1, [] => []
  | fuel + 1, c :: cs =>
    if pat ≠ [] ∧ startsList (c :: cs) pat = true then
      rep ++ pyReplaceAux pat rep fuel ((c :: cs).drop pat.length)
    else
      c :: pyReplaceAux pat rep fuel cs

/-- Python s.replace(pat, rep) for a nonempty pattern: replace every
non-overlapping occurrence, scanning left to right. -/
def pyReplace (s pat rep : String) : String :=
  String.mk (pyReplaceAux pat.data rep.data s.data.length s.data)

/-! ## Data model: actions, scopes, capabilities, groups

These record the features of the loosely typed platform objects that the
Python code inspects dynamically. -/

/-- A Python attribute value that the scope-string builder may find: either a
scalar (held as its str() form) or a list or tuple of values (each held as its
str() form). Truthiness follows Python: empty string and empty list are falsy. -/
inductive AttrVal where
  | scalar (s : String)
  | listVal (vs : List String)
deriving DecidableEq, Repr

/-- Python truthiness of an attribute value. -/
def AttrVal.truthy : AttrVal → Bool
  | .scalar s => s ≠ ""
  | .listVal vs => !vs.isEmpty

/-- The f-string rendering attr=value used by extract_scope_string, with
list values comma-joined. -/
def AttrVal.render (attr : String) : AttrVal → String
  | .scalar s => attr ++ "=" ++ s
  | .listVal vs => attr ++ "=" ++ joinWith "," vs

/-- A scope object: its structural type name, whether it exposes an attribute
named all (hasAll) and the truthiness of that attribute when present
(allValue, which the code never reads), the five recognized identifying
fields (none equals absent), and its str() form. -/
structure Scope where
  typeName : String
  hasAll : Bool
  allValue : Bool
  data_set_id : Option AttrVal
  data_set_ids : Option AttrVal
  project : Option AttrVal
  project_id : Option AttrVal
  project_ids : Option AttrVal
  strRepr : String
deriving DecidableEq, Repr

/-- An action object: optional name and value attributes (held as the str()
form of the attribute) and the str() form of the object itself. -/
structure Action where
  name : Option String
  value : Option String
  strRepr : String
deriving DecidableEq, Repr

/-- A capability grant object: its structural type name, its actions attribute
(none models an absent attribute; the code also treats an empty collection as
absent) and its scope attribute (none models absent or None). -/
structure Capability where
  typeName : String
  actions : Option (List Action)
  scope : Option Scope
deriving DecidableEq, Repr

/-- A group: identity attributes and the ordered list of grants. -/
structure Group where
  name : String
  id : String
  source_id : String
  capabilities : List Capability
deriving DecidableEq, Repr

/-- The str-or-list-or-None return shape of extract_capability_key. -/
inductive CapKeys where
  | noKeys
  | single (s : String)
  | multi (ss : List String)
deriving DecidableEq, Repr

/-! ## Key canonicalizer (src/utils/cognite_groups_export.py) -/

/-- Insert an underscore before every uppercase character of the tail of a
type name, as the regex substitution in extract_resource_name does. -/
def insertBreaks : List Char → List Char
  | [] => []
  | c :: cs => (if c.isUpper then ['_', c] else [c]) ++ insertBreaks cs

/-- extract_resource_name: strip a trailing Acl from the structural type name,
insert underscores before interior uppercase letters, and lowercase. -/
def extract_resource_name (typeName : String) : String :=
  let cs := if pyEnds typeName "Acl" then typeName.data.take (typeName.data.length - 3)
            else typeName.data
  match cs with
  | [] => ""
  | c :: rest => pyLower (String.mk (c :: insertBreaks rest))

/-- first_token: the part of s before the first colon, apostrophe or
greater-than sign, stripped and lowercased. -/
def first_token (s : String) : String :=
  pyLower (pyStrip (String.mk (((s.data.takeWhile (· ≠ ':')).takeWhile
    (fun c => c.toNat ≠ 39)).takeWhile (· ≠ '>'))))

/-- extract_action_name: prefer the name attribute, then the value attribute,
then parse the textual representation after the last Action. prefix or after
the last dot. -/
def extract_action_name (a : Action) : String :=
  match a.name with
  | some n => pyLower n
  | Option.none =>
    match a.value with
    | some v => pyLower v
    | Option.none =>
      let s := a.strRepr
      if (s.splitOn "Action.").length > 1 then
        first_token ((s.splitOn "Action.").getLastD "")
      else if (s.splitOn ".").length > 1 then
        first_token ((s.splitOn ".").getLastD "")
      else first_token s

/-- is_all_scope: None, an AllScope-typed object, or any object exposing an
attribute named all (regardless of its value). -/
def is_all_scope (scope : Option Scope) : Bool :=
  match scope with
  | Option.none => true
  | some s => if s.typeName = "AllScope" then true else if s.hasAll then true else false

/-- The recognized scope fields, in the order the code probes them. -/
def scopeFields (s : Scope) : List (String × Option AttrVal) :=
  [("data_set_id", s.data_set_id), ("data_set_ids", s.data_set_ids),
   ("project", s.project), ("project_id", s.project_id), ("project_ids", s.project_ids)]

/-- extract_scope_string: none for an all scope; otherwise render every
present truthy recognized field, falling back to the str() form with an
enclosing Scope( ) wrapper stripped. -/
def extract_scope_string (scope : Option Scope) : Option String :=
  if is_all_scope scope then Option.none
  else match scope with
  | Option.none => Option.none
  | some s =>
    let parts := (scopeFields s).foldl (fun acc p =>
      match p.2 with
      | some v => if v.truthy then acc ++ [AttrVal.render p.1 v] else acc
      | Option.none => acc) []
    let parts :=
      if parts.isEmpty then
        let t := s.strRepr
        let t := if pyStarts t "Scope(" && pyEnds t ")" then
          String.mk ((t.data.drop 6).take ((t.data.drop 6).length - 1)) else t
        [t]
      else parts
    some (joinWith ":" parts)

/-- The action names of a grant that survive the emptiness filter. -/
def valid_action_names (acts : List Action) : List String :=
  (acts.map extract_action_name).filter (fun s => s ≠ "")

/-- sorted(set(action_names)): deduplicate and sort lexicographically. -/
def sorted_action_names (acts : List Action) : List String :=
  List.insertionSort keyLe (valid_action_names acts).dedup

/-- The loop body of extract_capability_key: the key of one sorted action
name, with the scope suffix appended when a truthy scope yields a nonempty
scope string. -/
def key_of_action (cap : Capability) (a : String) : String :=
  let k := extract_resource_name cap.typeName ++ ":" ++ a
  match cap.scope with
  | Option.none => k
  | some s =>
    match extract_scope_string (some s) with
    | some scopeStr => if scopeStr = "" then k else k ++ ":" ++ scopeStr
    | Option.none => k

/-- extract_capability_key: canonical key(s) of a grant, in the shape the
Python function returns (None, a single string, or a list). -/
def extract_capability_key (cap : Capability) : CapKeys :=
  match cap.actions with
  | Option.none => .noKeys
  | some acts =>
    if acts.isEmpty then .noKeys
    else
      if (valid_action_names acts).isEmpty then .noKeys
      else
        let keys := (sorted_action_names acts).map (key_of_action cap)
        match keys with
        | [k] => .single k
        | ks => .multi ks

/-- iter_capability_keys: flatten the str-or-list-or-None shape, yielding
nothing for a falsy result. -/
def iter_capability_keys (cap : Capability) : List String :=
  match extract_capability_key cap with
  | .noKeys => []
  | .single s => if s = "" then [] else [s]
  | .multi ss => if ss.isEmpty then [] else ss

/-- The key list the removal filter builds from the extractor result
(a single string becomes a one-element list, None contributes no list). -/
def capability_key_list (cap : Capability) : List String :=
  match extract_capability_key cap with
  | .noKeys => []
  | .single s => [s]
  | .multi ss => ss

/-! ## Capability set builder (src/utils/cognite_groups_export.py) -/

/-- All keys contributed by one group, in grant order. -/
def group_keys (g : Group) : List String :=
  (g.capabilities.map iter_capability_keys).flatten

/-- Keys contributed by one customer entry; a None value (fetch failure) is
skipped. -/
def customer_keys : Option (List Group) → List String
  | Option.none => []
  | some gs => (gs.map group_keys).flatten

/-- A groups_by_customer mapping: customer name to groups or None. -/
abbrev CustomerMap : Type := List (String × Option (List Group))

/-- The multiset of keys over all customers, in iteration order. -/
def all_keys (m : CustomerMap) : List String :=
  (m.map (fun p => customer_keys p.2)).flatten

/-- collect_all_capabilities: the sorted deduplicated universe of keys. -/
def collect_all_capabilities (m : CustomerMap) : List String :=
  List.insertionSort keyLe (all_keys m).dedup

/-! ## Matrix builder (src/utils/cognite_groups_export.py) -/

/-- The three identity columns of every customer sheet. -/
def group_cols : List String := ["Group Name", "Group ID", "Source ID"]

/-- Python dict assignment d[k] = v: overwrite in place or append. -/
def dictInsert (d : List (String × String)) (k v : String) : List (String × String) :=
  if d.any (fun p => p.1 = k) then d.map (fun p => if p.1 = k then (k, v) else p)
  else d ++ [(k, v)]

/-- Python dict lookup d[k] (the keys looked up are always present). -/
def lookupD (d : List (String × String)) (k : String) : String :=
  ((d.find? (fun p => p.1 = k)).map Prod.snd).getD ""

/-- build_group_row: identity columns then one Y/N entry per universe key. -/
def build_group_row (g : Group) (all_capabilities : List String) : List (String × String) :=
  let row := [("Group Name", g.name), ("Group ID", g.id), ("Source ID", g.source_id)]
  all_capabilities.foldl (fun row cap =>
    dictInsert row cap (if cap ∈ group_keys g then "Y" else "N")) row

/-- A dataframe: a header and one list of cell values per row. -/
structure Frame where
  header : List String
  rows : List (List String)
deriving DecidableEq, Repr

/-- build_customer_dataframe: one row per group, columns reordered to the
identity columns followed by the universe keys. The pandas DataFrame built
from an empty row list has no columns, so the column selection df[cols]
raises KeyError (the requested identity columns are absent); that error path
is the none result. For a nonempty row list every requested column is a key
of every row dict, so the selection succeeds. -/
def build_customer_dataframe (groups : List Group) (all_capabilities : List String) :
    Option Frame :=
  if (groups.map (fun g => build_group_row g all_capabilities)).isEmpty then Option.none
  else some
    { header := group_cols ++ all_capabilities,
      rows := (groups.map (fun g => build_group_row g all_capabilities)).map
        (fun d => (group_cols ++ all_capabilities).map (lookupD d)) }

/-! ## Removal policy engine (src/utils/remove_capabilities.py) -/

/-- The fixed legacy resource catalog. -/
def LEGACY_RESOURCE_NAMES : List String :=
  ["assets", "timeseries", "events", "files", "sequences", "raw", "data_sets",
   "spaces", "containers", "datapoints", "three_d", "three_d_models", "documents"]

/-- capability_keys_to_remove: trimmed nonempty explicit keys, plus (when
legacy matching is on) the lowercased trimmed legacy resource names. -/
def capability_keys_to_remove (legacy_resources : Bool)
    (specific_keys : Option (List String)) (legacy_list : Option (List String)) :
    List String :=
  let base : List String :=
    match specific_keys with
    | some ks => if ks.isEmpty then [] else (ks.map pyStrip).filter (fun s => s ≠ "")
    | Option.none => []
  if legacy_resources then
    let legacy := match legacy_list with
      | some l => if l.isEmpty then LEGACY_RESOURCE_NAMES else l
      | Option.none => LEGACY_RESOURCE_NAMES
    base ++ legacy.map (fun r => pyStrip (pyLower r))
  else base

/-- should_remove_capability_key: exact match on the lowercased key, else (for
legacy matching) a colon-free entry matching as a resource-colon pre-part. -/
def should_remove_capability_key (key : String) (to_remove : List String)
    (legacy_resources : Bool) : Bool :=
  let key_lower := pyLower key
  if key_lower ∈ to_remove then true
  else if legacy_resources then
    to_remove.any (fun r => !(hasColon r) && pyStarts key_lower (r ++ ":"))
  else false

/-- filter_capabilities_for_removal, instantiated (as the playbook does) with
extract_capability_key as the key extractor: keep a grant with no derivable
keys, drop a grant any of whose keys matches. -/
def filter_capabilities_for_removal (g : Group) (to_remove : List String)
    (legacy_resources : Bool) : List Capability :=
  if g.capabilities.isEmpty then []
  else g.capabilities.filter (fun cap =>
    match extract_capability_key cap with
    | .noKeys => true
    | .single s => !(should_remove_capability_key s to_remove legacy_resources)
    | .multi ss => !(ss.any (fun k => should_remove_capability_key k to_remove legacy_resources)))

/-! ## Backup and restore engine (src/utils/group_backup_restore.py)

The external Capability.dump and Capability.load collaborators are modelled as
parameters dump and load; the JSON serialization between them is a lossless
identity on the record structure. File naming and writing are out of scope;
backup_groups_to_archive is modelled by the backup record it serializes. -/

/-- One serialized group entry of the backup record. -/
structure GroupRecord (D : Type) where
  id : String
  name : String
  capabilities : List D
deriving DecidableEq, Repr

/-- The backup record built by backup_groups_to_archive: per customer, the
dumped groups (a failed customer contributes an empty list). The loop also
builds every fetched customer's dataframe before the JSON record is written;
when that call raises (a customer with an empty group list, see
build_customer_dataframe), the whole backup aborts with no record, which is
the none result. -/
def backup_groups_to_archive {D : Type} (dump : Capability → D) (m : CustomerMap) :
    Option (List (String × List (GroupRecord D))) :=
  if m.any (fun p =>
      match p.2 with
      | some gs => (build_customer_dataframe gs (collect_all_capabilities m)).isNone
      | Option.none => false) then Option.none
  else some (m.map (fun p => (p.1,
    match p.2 with
    | Option.none => []
    | some gs => gs.map (fun g => ⟨g.id, g.name, g.capabilities.map dump⟩))))

/-- The list comprehension over Capability.load inside the try block: the
first failing load aborts the whole group. -/
def load_all {D : Type} (load : D → Option Capability) : List D → Option (List Capability)
  | [] => some []
  | d :: ds =>
    match load d with
    | some c =>
      match load_all load ds with
      | some cs => some (c :: cs)
      | Option.none => Option.none
    | Option.none => Option.none

/-- restore_groups_from_backup: per customer and per recorded group, the
reconstructed capabilities (none records a skipped group whose load failed). -/
def restore_groups_from_backup {D : Type} (load : D → Option Capability)
    (backup : List (String × List (GroupRecord D))) :
    List (String × List (String × Option (List Capability))) :=
  backup.map (fun p => (p.1, p.2.map (fun gr => (gr.id, load_all load gr.capabilities))))

/-! ## Archive discovery (src/utils/group_backup_restore.py)

A directory is modelled by the list of file names it contains. -/

/-- The glob pattern groups_backup_*.json on a file name. -/
def globMatch (n : String) : Bool :=
  pyStarts n "groups_backup_" && pyEnds n ".json" && decide (19 ≤ n.data.length)

/-- Path.stem of a matched record file: the name without the .json suffix. -/
def stemOf (n : String) : String := String.mk (n.data.take (n.data.length - 5))

/-- The timestamp the code derives from a record file name. -/
def tsOf (n : String) : String :=
  let stem := stemOf n
  if pyStarts stem "groups_backup_" then pyReplace stem "groups_backup_" "" else ""

/-- list_backups: record files matched by the glob, sorted descending by file
name, each paired with its same-stem spreadsheet when that exists, as
(excel, json, timestamp) triples. -/
def list_backups (listing : List String) : List (String × String × String) :=
  let jsons := (List.insertionSort keyLe (listing.filter globMatch)).reverse
  jsons.filterMap (fun j =>
    let excel := stemOf j ++ ".xlsx"
    if excel ∈ listing then some (excel, j, tsOf j) else Option.none)

/-! ## Order properties of the code-point comparison -/

theorem Char.toNat_inj2 {a b : Char} (h : a.toNat = b.toNat) : a = b :=
  Char.eq_of_val_eq (UInt32.eq_of_toBitVec_eq (BitVec.eq_of_toNat_eq h))

theorem strLtB_asymm : ∀ as bs, strLtB as bs = true → strLtB bs as = true → False
  | [], [], h, _ => by simp [strLtB] at h
  | [], _ :: _, _, h2 => by simp [strLtB] at h2
  | _ :: _, [], h1, _ => by simp [strLtB] at h1
  | a :: as, b :: bs, h1, h2 => by
    simp only [strLtB] at h1 h2
    split_ifs at h1 h2 <;> try omega
    exact strLtB_asymm as bs h1 h2

theorem strLtB_eq_of_not_lt : ∀ as bs, strLtB as bs = false → strLtB bs as = false → as = bs
  | [], [], _, _ => rfl
  | [], _ :: _, h1, _ => by simp [strLtB] at h1
  | _ :: _, [], _, h2 => by simp [strLtB] at h2
  | a :: as, b :: bs, h1, h2 => by
    simp only [strLtB] at h1 h2
    split_ifs at h1 h2
    have hab : a = b := Char.toNat_inj2 (by omega)
    rw [hab, strLtB_eq_of_not_lt as bs h1 h2]

theorem strLtB_trans : ∀ as bs cs, strLtB as bs = true → strLtB bs cs = true →
    strLtB as cs = true
  | [], _ :: _, _ :: _, _, _ => by simp [strLtB]
  | [], _ :: _, [], _, h2 => by simp [strLtB] at h2
  | [], [], _, h1, _ => by simp [strLtB] at h1
  | _ :: _, [], _, h1, _ => by simp [strLtB] at h1
  | _ :: _, _ :: _, [], _, h2 => by simp [strLtB] at h2
  | a :: as, b :: bs, c :: cs, h1, h2 => by
    simp only [strLtB] at h1 h2 ⊢
    split_ifs at h1 h2 ⊢ <;> try omega
    all_goals try rfl
    exact strLtB_trans as bs cs h1 h2

instance : IsTotal String keyLe where
  total a b := by
    unfold keyLe pyLt
    cases h1 : strLtB b.data a.data
    · exact Or.inl rfl
    · cases h2 : strLtB a.data b.data
      · exact Or.inr rfl
      · exact absurd (strLtB_asymm _ _ h1 h2) (fun f => f)

instance : IsTrans String keyLe where
  trans a b c hab hbc := by
    unfold keyLe pyLt at hab hbc ⊢
    cases h : strLtB c.data a.data
    · rfl
    · exfalso
      cases h3 : strLtB b.data c.data
      · have hbc2 : b.data = c.data := strLtB_eq_of_not_lt _ _ h3 hbc
        rw [← hbc2] at h
        rw [h] at hab
        cases hab
      · have : strLtB b.data a.data = true := strLtB_trans _ _ _ h3 h
        rw [this] at hab
        cases hab

instance : IsAntisymm String keyLe where
  antisymm a b hab hba := by
    unfold keyLe pyLt at hab hba
    exact String.ext (strLtB_eq_of_not_lt a.data b.data hba hab)

/-- insertionSort by keyLe of two permuted deduplicated lists agree. -/
theorem sort_eq_of_perm {l1 l2 : List String} (h : List.Perm l1 l2) :
    List.insertionSort keyLe l1 = List.insertionSort keyLe l2 :=
  List.eq_of_perm_of_sorted
    (((List.perm_insertionSort keyLe l1).trans h).trans
      (List.perm_insertionSort keyLe l2).symm)
    (List.sorted_insertionSort keyLe l1) (List.sorted_insertionSort keyLe l2)

/-! ## Structural lemmas about the canonicalizer -/

/-- Collapsing the str-or-list return shape back to the underlying key list. -/
theorem cap_list_of_match (ks : List String) :
    (match (match ks with | [k] => CapKeys.single k | l => CapKeys.multi l) with
     | CapKeys.noKeys => []
     | CapKeys.single s => [s]
     | CapKeys.multi l => l) = ks := by
  match ks with
  | [] => rfl
  | [k] => rfl
  | a :: b :: rest => rfl

theorem sorted_action_names_nil : sorted_action_names [] = [] := rfl

theorem valid_action_names_nil : valid_action_names [] = [] := rfl

/-- When a grant has actions and at least one valid action name, its key list
is the per-action key over the sorted deduplicated action names. -/
theorem capability_key_list_spec (cap : Capability) (acts : List Action)
    (hA : cap.actions = some acts) (hne : sorted_action_names acts ≠ []) :
    capability_key_list cap = (sorted_action_names acts).map (key_of_action cap) := by
  have hacts : acts.isEmpty = false := by
    cases acts with
    | nil => exact absurd sorted_action_names_nil hne
    | cons a l => rfl
  have hvalid : (valid_action_names acts).isEmpty = false := by
    cases hv : valid_action_names acts with
    | nil =>
      exfalso
      apply hne
      unfold sorted_action_names
      rw [hv]
      rfl
    | cons a l => rfl
  unfold capability_key_list extract_capability_key
  rw [hA]
  simp only [hacts, hvalid, Bool.false_eq_true, if_false]
  exact cap_list_of_match _

/-! ## Concrete objects used by witnesses and counterexamples -/

/-- An action object like TimeSeriesAcl.Action.Read of the platform SDK. -/
def actRead : Action := ⟨some "Read", Option.none, "Action.Read"⟩

/-- An action object like TimeSeriesAcl.Action.Write of the platform SDK. -/
def actWrite : Action := ⟨some "Write", Option.none, "Action.Write"⟩

/-- A data-set scope restricting to data set 5. -/
def dataSetScope5 : Scope :=
  ⟨"DataSetScope", false, false, some (.scalar "5"), Option.none, Option.none,
   Option.none, Option.none, "DataSetScope(data_set_id=5)"⟩

/-- A TimeSeriesAcl grant with duplicated Read and a Write, unrestricted. -/
def tsCapAll : Capability := ⟨"TimeSeriesAcl", some [actWrite, actRead, actRead], Option.none⟩

/-- A TimeSeriesAcl grant with Write and Read, scoped to data set 5. -/
def tsCapScoped : Capability := ⟨"TimeSeriesAcl", some [actWrite, actRead], some dataSetScope5⟩

/-! ## Claim C1 -/

/-- Helper: a nonempty list of strings drawn from read and write, containing
both, sorts after deduplication to the two-element sorted list. -/
theorem sorted_read_write {l : List String}
    (hall : ∀ x ∈ l, x = "read" ∨ x = "write")
    (hr : "read" ∈ l) (hw : "write" ∈ l) :
    List.insertionSort keyLe l.dedup = ["read", "write"] := by
  have hperm : List.Perm l.dedup ["read", "write"] := by
    refine (List.perm_ext_iff_of_nodup (List.nodup_dedup l) (by decide)).mpr ?_
    intro a
    rw [List.mem_dedup]
    constructor
    · intro ha
      rcases hall a ha with h | h <;> simp [h]
    · intro ha
      rcases List.mem_cons.mp ha with rfl | ha2
      · exact hr
      · rcases List.mem_cons.mp ha2 with rfl | ha3
        · exact hw
        · exact absurd ha3 (List.not_mem_nil a)
  exact List.eq_of_perm_of_sorted
    ((List.perm_insertionSort keyLe l.dedup).trans hperm)
    (List.sorted_insertionSort keyLe l.dedup) (by decide)

/-- C1 (amended): for every grant whose structural type name is TimeSeriesAcl,
whose actions all canonicalize to read or write with both present (any order,
any duplication), and whose scope is null or an all scope, extract_capability_key
returns exactly the list with time_series:read then time_series:write.
The original claim omitted the scope restriction; see the counterexample. -/
theorem claim_C1 (cap : Capability) (acts : List Action)
    (hT : cap.typeName = "TimeSeriesAcl")
    (hA : cap.actions = some acts)
    (hall : ∀ a ∈ acts, extract_action_name a = "read" ∨ extract_action_name a = "write")
    (hr : ∃ a ∈ acts, extract_action_name a = "read")
    (hw : ∃ a ∈ acts, extract_action_name a = "write")
    (hs : is_all_scope cap.scope = true) :
    extract_capability_key cap = CapKeys.multi ["time_series:read", "time_series:write"] := by
  obtain ⟨ar, har, harname⟩ := hr
  obtain ⟨aw, haw, hawname⟩ := hw
  have hvr : "read" ∈ valid_action_names acts := by
    unfold valid_action_names
    rw [List.mem_filter]
    exact ⟨List.mem_map.mpr ⟨ar, har, harname⟩, by decide⟩
  have hvw : "write" ∈ valid_action_names acts := by
    unfold valid_action_names
    rw [List.mem_filter]
    exact ⟨List.mem_map.mpr ⟨aw, haw, hawname⟩, by decide⟩
  have hvall : ∀ x ∈ valid_action_names acts, x = "read" ∨ x = "write" := by
    intro x hx
    unfold valid_action_names at hx
    rw [List.mem_filter] at hx
    obtain ⟨a, ha, rfl⟩ := List.mem_map.mp hx.1
    exact hall a ha
  have hsorted : sorted_action_names acts = ["read", "write"] :=
    sorted_read_write hvall hvr hvw
  have hres : extract_resource_name "TimeSeriesAcl" = "time_series" := by decide
  have hkey : ∀ a : String, key_of_action cap a = "time_series" ++ ":" ++ a := by
    intro a
    unfold key_of_action
    rw [hT]
    cases hsc : cap.scope with
    | none => simp [hres]
    | some s =>
      rw [hsc] at hs
      have hess : extract_scope_string (some s) = Option.none := by
        unfold extract_scope_string
        rw [hs]
        rfl
      simp [hess, hres]
  have hacts : acts.isEmpty = false := by
    cases acts with
    | nil => exact absurd har (List.not_mem_nil ar)
    | cons x l => rfl
  have hvalid : (valid_action_names acts).isEmpty = false := by
    cases hv : valid_action_names acts with
    | nil =>
      rw [hv] at hvr
      exact absurd hvr (List.not_mem_nil _)
    | cons x l => rfl
  unfold extract_capability_key
  rw [hA]
  simp only [hacts, hvalid, Bool.false_eq_true, if_false]
  rw [hsorted]
  simp only [List.map_cons, List.map_nil, hkey]
  rfl

/-- C1 counterexample: a grant with type name TimeSeriesAcl and actions Write
and Read, but carrying a data-set scope; extract_capability_key appends the
scope suffix to every key, so it does not return the claimed list. -/
theorem claim_C1_counterexample :
    tsCapScoped.typeName = "TimeSeriesAcl"
    ∧ extract_capability_key tsCapScoped =
        CapKeys.multi ["time_series:read:data_set_id=5", "time_series:write:data_set_id=5"]
    ∧ extract_capability_key tsCapScoped ≠
        CapKeys.multi ["time_series:read", "time_series:write"] :=
  ⟨rfl, by decide, by decide⟩

/-- C1 witness: the amended theorem applied to a concrete unrestricted grant
with actions Write, Read, Read. -/
theorem claim_C1_witness :
    extract_capability_key tsCapAll = CapKeys.multi ["time_series:read", "time_series:write"] :=
  claim_C1 tsCapAll [actWrite, actRead, actRead] rfl rfl (by decide)
    ⟨actRead, by decide, by decide⟩ ⟨actWrite, by decide, by decide⟩ rfl

/-! ## Claim C4 -/

/-- C4: with legacy matching enabled and the default catalog (which contains
the bare entry assets), should_remove_capability_key removes assets:read and
assets:write:dataset=5 but not asset_mappings:read, because a bare legacy
entry only matches a key that starts with the entry followed by a colon. -/
theorem claim_C4 :
    should_remove_capability_key "assets:read"
      (capability_keys_to_remove true Option.none Option.none) true = true
    ∧ should_remove_capability_key "assets:write:dataset=5"
      (capability_keys_to_remove true Option.none Option.none) true = true
    ∧ should_remove_capability_key "asset_mappings:read"
      (capability_keys_to_remove true Option.none Option.none) true = false :=
  ⟨by decide, by decide, by decide⟩

/-! ## Claim C5 -/

/-- C5 (amended): with legacy matching disabled, the exact-match branch
removes a candidate key k exactly when the lowercase of k equals some stored
entry verbatim, the stored entries being the trimmed nonempty explicit keys
kept with their original case. Matching is therefore case-insensitive in the
candidate only: a stored entry containing an uppercase letter never matches.
The original claim said both sides are lowercased on lookup. -/
theorem claim_C5 (ks : List String) (k : String) :
    should_remove_capability_key k
      (capability_keys_to_remove false (some ks) Option.none) false = true
    ↔ ∃ K ∈ ks, pyStrip K ≠ "" ∧ pyLower k = pyStrip K := by
  have hmem : (pyLower k ∈ capability_keys_to_remove false (some ks) Option.none) ↔
      ∃ K ∈ ks, pyStrip K ≠ "" ∧ pyLower k = pyStrip K := by
    unfold capability_keys_to_remove
    cases hks : ks.isEmpty with
    | true =>
      rw [List.isEmpty_iff] at hks
      subst hks
      simp
    | false =>
      simp only [hks, Bool.false_eq_true, if_false]
      rw [List.mem_filter]
      constructor
      · rintro ⟨h1, h2⟩
        obtain ⟨K, hK, hKeq⟩ := List.mem_map.mp h1
        refine ⟨K, hK, ?_, hKeq.symm⟩
        rw [hKeq]
        simpa using h2
      · rintro ⟨K, hK, hne, heq⟩
        refine ⟨List.mem_map.mpr ⟨K, hK, heq.symm⟩, ?_⟩
        rw [heq]
        simpa using hne
  unfold should_remove_capability_key
  by_cases hin : pyLower k ∈ capability_keys_to_remove false (some ks) Option.none
  · rw [if_pos hin]
    simp only [true_iff]
    exact hmem.mp hin
  · rw [if_neg hin, if_neg (fun h => Bool.noConfusion h)]
    constructor
    · intro h
      exact Bool.noConfusion h
    · intro hex
      exact absurd (hmem.mpr hex) hin

/-- C5 counterexample: the explicit key Assets:Read is stored verbatim; the
candidate ASSETS:READ lowercases to assets:read, which equals the lowercase of
the stored key, yet the lookup does not remove it, because the stored side is
never lowercased. -/
theorem claim_C5_counterexample :
    pyLower "ASSETS:READ" = pyLower "Assets:Read"
    ∧ should_remove_capability_key "ASSETS:READ"
        (capability_keys_to_remove false (some ["Assets:Read"]) Option.none) false = false :=
  ⟨by decide, by decide⟩

/-- C5 witness: a candidate differing from a stored lowercase entry only by
case and surrounding whitespace of the stored original is removed. -/
theorem claim_C5_witness :
    should_remove_capability_key "Assets:Write"
      (capability_keys_to_remove false (some [" assets:write "]) Option.none) false = true :=
  (claim_C5 [" assets:write "] "Assets:Write").mpr
    ⟨" assets:write ", by decide, by decide, by decide⟩

/-! ## Lemmas about the startswith test -/

theorem startsList_iff : ∀ (s p : List Char), startsList s p = true ↔ ∃ t, s = p ++ t := by
  intro s p
  induction p generalizing s with
  | nil => simp [startsList]
  | cons c ps ih =>
    cases s with
    | nil => simp [startsList]
    | cons a as =>
      unfold startsList
      by_cases hac : a = c
      · subst hac
        rw [if_pos rfl, ih]
        constructor
        · rintro ⟨t, rfl⟩
          exact ⟨t, rfl⟩
        · rintro ⟨t, ht⟩
          rw [List.cons_append] at ht
          exact ⟨t, (List.cons.injEq _ _ _ _).mp ht |>.2⟩
      · rw [if_neg hac]
        constructor
        · intro h
          exact Bool.noConfusion h
        · rintro ⟨t, ht⟩
          rw [List.cons_append] at ht
          exact absurd ((List.cons.injEq _ _ _ _).mp ht).1 hac

/-- If p is a prefix of a ++ y then the first length-of-a characters of p are
a prefix of a. -/
theorem startsList_take (a : List Char) : ∀ (p y : List Char),
    startsList (a ++ y) p = true → startsList a (p.take a.length) = true := by
  induction a with
  | nil => intro p y _; simp [startsList]
  | cons c cs ih =>
    intro p y h
    cases p with
    | nil => simp [startsList]
    | cons q ps =>
      rw [List.cons_append] at h
      unfold startsList at h
      by_cases hq : c = q
      · subst hq
        simp only [List.length_cons, List.take_succ_cons]
        unfold startsList
        rw [if_pos rfl]
        exact ih ps y (by simpa using h)
      · rw [if_neg hq] at h
        exact Bool.noConfusion h

/-- Contrapositive form used to refute resource-token matches. -/
theorem not_starts_of_take (a y p : List Char)
    (h : startsList a (p.take a.length) = false) : startsList (a ++ y) p = false := by
  cases hx : startsList (a ++ y) p with
  | false => rfl
  | true => exact absurd (startsList_take a p y hx) (by simp [h])

/-! ## Lemmas about the removal filter -/

/-- The keep predicate of filter_capabilities_for_removal holds exactly when
no derived key of the grant matches the removal set. -/
theorem filter_pred_iff (cap : Capability) (tr : List String) (lg : Bool) :
    ((match extract_capability_key cap with
      | CapKeys.noKeys => true
      | CapKeys.single s => !(should_remove_capability_key s tr lg)
      | CapKeys.multi ss => !(ss.any (fun k => should_remove_capability_key k tr lg))) = true)
    ↔ ∀ k ∈ capability_key_list cap, should_remove_capability_key k tr lg = false := by
  unfold capability_key_list
  cases extract_capability_key cap with
  | noKeys => simp
  | single s => simp
  | multi ss => simp [List.any_eq_false]

/-- Every derived key of a grant is the per-action key of some action name. -/
theorem capability_key_list_mem (cap : Capability) :
    ∀ k ∈ capability_key_list cap, ∃ a, k = key_of_action cap a := by
  intro k hk
  unfold capability_key_list extract_capability_key at hk
  cases hA : cap.actions with
  | none =>
    rw [hA] at hk
    simp at hk
  | some acts =>
    rw [hA] at hk
    simp only at hk
    by_cases h1 : acts.isEmpty
    · rw [if_pos h1] at hk
      simp at hk
    · rw [if_neg h1] at hk
      by_cases h2 : (valid_action_names acts).isEmpty
      · rw [if_pos h2] at hk
        simp at hk
      · rw [if_neg h2] at hk
        rw [cap_list_of_match] at hk
        obtain ⟨a, _, rfl⟩ := List.mem_map.mp hk
        exact ⟨a, rfl⟩

/-! ## Claim C10 -/

theorem legacy_default_set :
    capability_keys_to_remove true Option.none Option.none = LEGACY_RESOURCE_NAMES := by decide

theorem str_append_assoc (a b c : String) : (a ++ b) ++ c = a ++ (b ++ c) :=
  String.ext (by rw [String.data_append, String.data_append, String.data_append,
    String.data_append, List.append_assoc])

/-- Computation rule for the per-action key when the grant has no scope. -/
theorem key_of_action_none (cap : Capability) (hsc : cap.scope = Option.none) (a : String) :
    key_of_action cap a = extract_resource_name cap.typeName ++ ":" ++ a := by
  unfold key_of_action
  rw [hsc]

/-- Computation rule for the per-action key when the grant has a scope. -/
theorem key_of_action_some (cap : Capability) (s : Scope) (hsc : cap.scope = some s)
    (a : String) :
    key_of_action cap a =
      (match extract_scope_string (some s) with
       | some str => if str = "" then extract_resource_name cap.typeName ++ ":" ++ a
                     else extract_resource_name cap.typeName ++ ":" ++ a ++ ":" ++ str
       | Option.none => extract_resource_name cap.typeName ++ ":" ++ a) := by
  unfold key_of_action
  rw [hsc]

/-- The per-action key is the bare resource-colon-action string or that
string with a nonempty scope suffix. -/
theorem key_of_action_eq (cap : Capability) (a : String) :
    key_of_action cap a = extract_resource_name cap.typeName ++ ":" ++ a
    ∨ ∃ str : String, str ≠ "" ∧
        key_of_action cap a = extract_resource_name cap.typeName ++ ":" ++ a ++ ":" ++ str := by
  cases hsc : cap.scope with
  | none => exact Or.inl (key_of_action_none cap hsc a)
  | some s =>
    rw [key_of_action_some cap s hsc a]
    cases hess : extract_scope_string (some s) with
    | none => exact Or.inl rfl
    | some str =>
      by_cases hstr : str = ""
      · exact Or.inl (if_pos hstr)
      · exact Or.inr ⟨str, hstr, if_neg hstr⟩

/-- Every key of a TimeSeriesAcl grant starts with the twelve characters
time_series and a colon. -/
theorem ts_key_shape (cap : Capability) (hT : cap.typeName = "TimeSeriesAcl") (a : String) :
    ∃ rest : String, key_of_action cap a = "time_series:" ++ rest := by
  have hres : extract_resource_name "TimeSeriesAcl" = "time_series" := by decide
  have hc : ("time_series" : String) ++ ":" = "time_series:" := by decide
  rcases key_of_action_eq cap a with h | ⟨str, _, h⟩
  · refine ⟨a, ?_⟩
    rw [h, hT, hres, hc]
  · refine ⟨a ++ ":" ++ str, ?_⟩
    rw [h, hT, hres, hc, ← str_append_assoc, ← str_append_assoc]

/-- C10: with legacy matching enabled and the default catalog, a grant of
structural type TimeSeriesAcl is never removed: its keys start with the
snake-cased token time_series and a colon, no key equals a bare catalog
entry, and no catalog entry followed by a colon is a prefix of such a key
(the catalog spells the resource timeseries, without an underscore). -/
theorem claim_C10 (g : Group) (cap : Capability) (hmem : cap ∈ g.capabilities)
    (hT : cap.typeName = "TimeSeriesAcl") :
    cap ∈ filter_capabilities_for_removal g
      (capability_keys_to_remove true Option.none Option.none) true := by
  have hkeys : ∀ k ∈ capability_key_list cap,
      should_remove_capability_key k
        (capability_keys_to_remove true Option.none Option.none) true = false := by
    intro k hk
    obtain ⟨a, rfl⟩ := capability_key_list_mem cap k hk
    obtain ⟨rest, hkey⟩ := ts_key_shape cap hT a
    rw [hkey, legacy_default_set]
    have hlow : (pyLower ("time_series:" ++ rest)).data =
        "time_series:".data ++ (pyLower rest).data := by
      show (("time_series:" ++ rest).data.map Char.toLower) = _
      rw [String.data_append, List.map_append]
      congr 1
    unfold should_remove_capability_key
    have hnotmem : pyLower ("time_series:" ++ rest) ∉ LEGACY_RESOURCE_NAMES := by
      intro hin
      have hcol : hasColon (pyLower ("time_series:" ++ rest)) = true := by
        unfold hasColon
        rw [List.any_eq_true]
        refine ⟨':', ?_, by decide⟩
        rw [hlow]
        exact List.mem_append.mpr (Or.inl (by decide))
      have hnone : ∀ x ∈ LEGACY_RESOURCE_NAMES, hasColon x = false := by decide
      rw [hnone _ hin] at hcol
      exact Bool.noConfusion hcol
    rw [if_neg hnotmem, if_pos rfl]
    rw [List.any_eq_false]
    intro r hr
    have hps : pyStarts (pyLower ("time_series:" ++ rest)) (r ++ ":") = false := by
      unfold pyStarts
      rw [hlow]
      apply not_starts_of_take
      fin_cases hr <;> decide
    simp [hps]
  unfold filter_capabilities_for_removal
  have hne : g.capabilities.isEmpty = false := by
    cases h : g.capabilities with
    | nil =>
      rw [h] at hmem
      exact absurd hmem (List.not_mem_nil cap)
    | cons x l => rfl
  simp only [hne, Bool.false_eq_true, if_false]
  rw [List.mem_filter]
  refine ⟨hmem, ?_⟩
  rw [filter_pred_iff]
  exact hkeys

/-- C10 witness: a concrete scoped TimeSeriesAcl grant survives default
legacy removal. -/
theorem claim_C10_witness :
    tsCapScoped ∈ filter_capabilities_for_removal ⟨"g", "1", "", [tsCapScoped]⟩
      (capability_keys_to_remove true Option.none Option.none) true :=
  claim_C10 ⟨"g", "1", "", [tsCapScoped]⟩ tsCapScoped (List.mem_cons_self _ _) rfl

/-! ## Claim C3 -/

/-- C3: the removal filter returns the order-preserving subsequence of the
grants consisting of every grant whose canonicalization is null together with
every grant none of whose keys matches; membership in the output is exactly
membership in the input with no matching key (so a grant with at least one
matching key is dropped even if other keys do not match). -/
theorem claim_C3 (g : Group) (tr : List String) (lg : Bool) :
    List.Sublist (filter_capabilities_for_removal g tr lg) g.capabilities
    ∧ ∀ cap, cap ∈ filter_capabilities_for_removal g tr lg ↔
        (cap ∈ g.capabilities ∧
          (extract_capability_key cap = CapKeys.noKeys
           ∨ ∀ k ∈ capability_key_list cap, should_remove_capability_key k tr lg = false)) := by
  unfold filter_capabilities_for_removal
  cases hg : g.capabilities.isEmpty with
  | true =>
    rw [List.isEmpty_iff] at hg
    rw [hg]
    simp
  | false =>
    simp only [hg, Bool.false_eq_true, if_false]
    constructor
    · exact List.filter_sublist g.capabilities
    · intro cap
      rw [List.mem_filter]
      constructor
      · rintro ⟨hm, hp⟩
        refine ⟨hm, Or.inr ?_⟩
        rw [← filter_pred_iff]
        exact hp
      · rintro ⟨hm, hnull | hkeys⟩
        · refine ⟨hm, ?_⟩
          rw [filter_pred_iff]
          intro k hk
          unfold capability_key_list at hk
          rw [hnull] at hk
          exact absurd hk (List.not_mem_nil k)
        · refine ⟨hm, ?_⟩
          rw [filter_pred_iff]
          exact hkeys

/-- C3 witness: a grant with a null canonicalization is kept even when the
removal set would match every string, and a multi-key grant with one matching
key is dropped. -/
theorem claim_C3_witness :
    (⟨"NoActions", Option.none, Option.none⟩ : Capability) ∈
      filter_capabilities_for_removal
        ⟨"g", "1", "", [⟨"NoActions", Option.none, Option.none⟩]⟩ ["assets"] true :=
  ((claim_C3 ⟨"g", "1", "", [⟨"NoActions", Option.none, Option.none⟩]⟩ ["assets"] true).2
    ⟨"NoActions", Option.none, Option.none⟩).mpr
    ⟨List.mem_cons_self _ _, Or.inl (by decide)⟩

/-! ## Claim C2 -/

/-- Pointwise permutation of customer values: both failed, or both fetched
with permuted group lists. -/
def OptPerm : Option (List Group) → Option (List Group) → Prop
  | Option.none, Option.none => True
  | some a, some b => List.Perm a b
  | _, _ => False

theorem flatten_perm_of_forall2 {α : Type} {l1 l2 : List (List α)}
    (h : List.Forall₂ List.Perm l1 l2) : List.Perm l1.flatten l2.flatten := by
  induction h with
  | nil => exact List.Perm.refl _
  | cons h1 _ ih => simpa using h1.append ih

theorem customer_keys_perm : ∀ {o1 o2 : Option (List Group)}, OptPerm o1 o2 →
    List.Perm (customer_keys o1) (customer_keys o2)
  | Option.none, Option.none, _ => List.Perm.refl _
  | some _, some _, h => (h.map group_keys).flatten

theorem all_keys_perm_of_perm {m1 m2 : CustomerMap} (h : List.Perm m1 m2) :
    List.Perm (all_keys m1) (all_keys m2) :=
  (h.map (fun p : String × Option (List Group) => customer_keys p.2)).flatten

theorem all_keys_perm_of_forall2 {m1 m2 : CustomerMap}
    (h : List.Forall₂ (fun p q => p.1 = q.1 ∧ OptPerm p.2 q.2) m1 m2) :
    List.Perm (all_keys m1) (all_keys m2) := by
  apply flatten_perm_of_forall2
  induction h with
  | nil => exact List.Forall₂.nil
  | cons h1 _ ih => exact List.Forall₂.cons (customer_keys_perm h1.2) ih

/-- Membership in the collected universe chases down to one key of one grant
of one group of one successfully fetched customer. -/
theorem mem_collect_iff (m : CustomerMap) (k : String) :
    k ∈ collect_all_capabilities m ↔
      ∃ p ∈ m, ∃ gs, p.2 = some gs ∧ ∃ g ∈ gs, ∃ c ∈ g.capabilities,
        k ∈ iter_capability_keys c := by
  unfold collect_all_capabilities
  rw [(List.perm_insertionSort keyLe _).mem_iff, List.mem_dedup]
  unfold all_keys
  rw [List.mem_flatten]
  constructor
  · rintro ⟨l, hl, hkl⟩
    obtain ⟨p, hp, rfl⟩ := List.mem_map.mp hl
    cases hp2 : p.2 with
    | none =>
      rw [hp2] at hkl
      exact absurd hkl (List.not_mem_nil k)
    | some gs =>
      refine ⟨p, hp, gs, hp2, ?_⟩
      rw [hp2] at hkl
      unfold customer_keys at hkl
      rw [List.mem_flatten] at hkl
      obtain ⟨l2, hl2, hkl2⟩ := hkl
      obtain ⟨g, hg, rfl⟩ := List.mem_map.mp hl2
      unfold group_keys at hkl2
      rw [List.mem_flatten] at hkl2
      obtain ⟨l3, hl3, hkl3⟩ := hkl2
      obtain ⟨c, hc, rfl⟩ := List.mem_map.mp hl3
      exact ⟨g, hg, c, hc, hkl3⟩
  · rintro ⟨p, hp, gs, hp2, g, hg, c, hc, hk⟩
    refine ⟨customer_keys p.2, List.mem_map.mpr ⟨p, hp, rfl⟩, ?_⟩
    rw [hp2]
    unfold customer_keys
    rw [List.mem_flatten]
    refine ⟨group_keys g, List.mem_map.mpr ⟨g, hg, rfl⟩, ?_⟩
    unfold group_keys
    rw [List.mem_flatten]
    exact ⟨iter_capability_keys c, List.mem_map.mpr ⟨c, hc, rfl⟩, hk⟩

/-- C2: collect_all_capabilities returns a sorted duplicate-free universe,
membership is exactly having some grant key under some non-null customer, and
the result is invariant under permuting customers and under permuting the
group list of each customer. -/
theorem claim_C2 (m : CustomerMap) :
    List.Sorted keyLe (collect_all_capabilities m)
    ∧ (collect_all_capabilities m).Nodup
    ∧ (∀ k, k ∈ collect_all_capabilities m ↔
        ∃ p ∈ m, ∃ gs, p.2 = some gs ∧ ∃ g ∈ gs, ∃ c ∈ g.capabilities,
          k ∈ iter_capability_keys c)
    ∧ (∀ m2, List.Perm m m2 →
        collect_all_capabilities m = collect_all_capabilities m2)
    ∧ (∀ m2, List.Forall₂ (fun p q => p.1 = q.1 ∧ OptPerm p.2 q.2) m m2 →
        collect_all_capabilities m = collect_all_capabilities m2) := by
  refine ⟨List.sorted_insertionSort keyLe _, ?_, mem_collect_iff m, ?_, ?_⟩
  · exact (List.perm_insertionSort keyLe (all_keys m).dedup).symm.nodup
      (List.nodup_dedup (all_keys m))
  · intro m2 h
    exact sort_eq_of_perm (all_keys_perm_of_perm h).dedup
  · intro m2 h
    exact sort_eq_of_perm (all_keys_perm_of_forall2 h).dedup

/-- A group used by the backup and universe witnesses. -/
def g1 : Group := ⟨"g1", "1", "s", [tsCapAll]⟩

/-- C2 witness: swapping two customers leaves the universe unchanged. -/
theorem claim_C2_witness :
    collect_all_capabilities [("acme", some [g1]), ("beta", Option.none)]
      = collect_all_capabilities [("beta", Option.none), ("acme", some [g1])] :=
  (claim_C2 _).2.2.2.1 _ (List.Perm.swap _ _ _)

/-! ## Claim C6 -/

/-- A non-all scope always yields some scope string (possibly empty). -/
theorem extract_scope_string_some_ne_none (s : Scope) (h : is_all_scope (some s) = false) :
    ∃ str, extract_scope_string (some s) = some str := by
  unfold extract_scope_string
  rw [h]
  simp only [Bool.false_eq_true, if_false]
  exact ⟨_, rfl⟩

/-- The scope string is absent exactly for an all scope. -/
theorem extract_scope_string_none_iff (s : Scope) :
    extract_scope_string (some s) = Option.none ↔ is_all_scope (some s) = true := by
  constructor
  · intro h
    cases hall : is_all_scope (some s) with
    | true => rfl
    | false =>
      obtain ⟨str, hstr⟩ := extract_scope_string_some_ne_none s hall
      rw [h] at hstr
      exact Option.noConfusion hstr
  · intro h
    unfold extract_scope_string
    rw [h]
    rfl

/-- is_all_scope on a present scope: marker type name or an exposed all
attribute, of any value. -/
theorem is_all_scope_some_iff (s : Scope) :
    is_all_scope (some s) = true ↔ (s.typeName = "AllScope" ∨ s.hasAll = true) := by
  show (if s.typeName = "AllScope" then true
        else if s.hasAll = true then true else false) = true ↔ _
  by_cases ht : s.typeName = "AllScope"
  · simp [ht]
  · rw [if_neg ht]
    by_cases hh : s.hasAll = true
    · simp [ht, hh]
    · simp [ht, hh]

/-- Computation rule for the per-action key of a scoped grant whose scope
yields a scope string. -/
theorem key_of_action_scope_some (cap : Capability) (s : Scope) (hsc : cap.scope = some s)
    (str : String) (hess : extract_scope_string (some s) = some str) (a : String) :
    key_of_action cap a =
      if str = "" then extract_resource_name cap.typeName ++ ":" ++ a
      else extract_resource_name cap.typeName ++ ":" ++ a ++ ":" ++ str := by
  unfold key_of_action
  rw [hsc]
  show (match extract_scope_string (some s) with
        | some scopeStr =>
          if scopeStr = "" then extract_resource_name cap.typeName ++ ":" ++ a
          else extract_resource_name cap.typeName ++ ":" ++ a ++ ":" ++ scopeStr
        | Option.none => extract_resource_name cap.typeName ++ ":" ++ a) = _
  rw [hess]

/-- Computation rule for the per-action key of a scoped grant whose scope
yields no scope string. -/
theorem key_of_action_scope_none (cap : Capability) (s : Scope) (hsc : cap.scope = some s)
    (hess : extract_scope_string (some s) = Option.none) (a : String) :
    key_of_action cap a = extract_resource_name cap.typeName ++ ":" ++ a := by
  unfold key_of_action
  rw [hsc]
  show (match extract_scope_string (some s) with
        | some scopeStr =>
          if scopeStr = "" then extract_resource_name cap.typeName ++ ":" ++ a
          else extract_resource_name cap.typeName ++ ":" ++ a ++ ":" ++ scopeStr
        | Option.none => extract_resource_name cap.typeName ++ ":" ++ a) = _
  rw [hess]

/-- C6 (amended): for a grant with actions and at least one valid action name,
the keys carry no scope suffix exactly when the scope is null, or its type
name is AllScope, or it exposes an attribute named all regardless of that
value, or its derived scope string is empty; in every other case each key
carries the scope suffix. The original claim required the all attribute to be
truthy and had no empty-scope-string case; see the counterexample. -/
theorem claim_C6 (cap : Capability) (acts : List Action)
    (hA : cap.actions = some acts)
    (hne : sorted_action_names acts ≠ []) :
    capability_key_list cap =
      (sorted_action_names acts).map (fun a => extract_resource_name cap.typeName ++ ":" ++ a)
    ↔ (cap.scope = Option.none
       ∨ ∃ s, cap.scope = some s ∧
           (s.typeName = "AllScope" ∨ s.hasAll = true ∨
            extract_scope_string (some s) = some "")) := by
  rw [capability_key_list_spec cap acts hA hne]
  obtain ⟨n, ns, hns⟩ : ∃ n ns, sorted_action_names acts = n :: ns := by
    cases h : sorted_action_names acts with
    | nil => exact absurd h hne
    | cons n ns => exact ⟨n, ns, rfl⟩
  constructor
  · intro heq
    rw [hns] at heq
    simp only [List.map_cons] at heq
    have hhead := ((List.cons.injEq _ _ _ _).mp heq).1
    cases hsc : cap.scope with
    | none => exact Or.inl rfl
    | some s =>
      cases hess : extract_scope_string (some s) with
      | none =>
        refine Or.inr ⟨s, rfl, ?_⟩
        have hall := (extract_scope_string_none_iff s).mp hess
        rcases (is_all_scope_some_iff s).mp hall with ht | hh
        · exact Or.inl ht
        · exact Or.inr (Or.inl hh)
      | some str =>
        rw [key_of_action_scope_some cap s hsc str hess n] at hhead
        by_cases hstr : str = ""
        · refine Or.inr ⟨s, rfl, Or.inr (Or.inr ?_)⟩
          rw [hess, hstr]
        · rw [if_neg hstr] at hhead
          exfalso
          have hlen := congrArg (fun t : String => t.data.length) hhead
          simp only [String.data_append, List.length_append] at hlen
          have hpos : str.data.length ≠ 0 := by
            intro h0
            exact hstr (String.ext (List.length_eq_zero.mp h0))
          have hone : (":" : String).data.length = 1 := rfl
          rw [hone] at hlen
          omega
  · intro hcond
    apply List.map_congr_left
    intro a _
    rcases hcond with hsc | ⟨s, hsc, hcond2⟩
    · exact key_of_action_none cap hsc a
    · rcases hcond2 with ht | hh | hempty
      · exact key_of_action_scope_none cap s hsc
          ((extract_scope_string_none_iff s).mpr ((is_all_scope_some_iff s).mpr (Or.inl ht))) a
      · exact key_of_action_scope_none cap s hsc
          ((extract_scope_string_none_iff s).mpr ((is_all_scope_some_iff s).mpr (Or.inr hh))) a
      · rw [key_of_action_scope_some cap s hsc "" hempty a]
        rw [if_pos rfl]

/-- A scope that exposes an attribute named all whose value is falsy, together
with a recognized data-set field. -/
def scopeFalseAll : Scope :=
  ⟨"DataSetScope", true, false, some (.scalar "5"), Option.none, Option.none,
   Option.none, Option.none, "DataSetScope(data_set_id=5)"⟩

/-- A read grant carrying that scope. -/
def capFalseAll : Capability := ⟨"TimeSeriesAcl", some [actRead], some scopeFalseAll⟩

/-- C6 counterexample: the scope is present, is not of the all-scope marker
type, and its all attribute is falsy, so the original claim requires a scope
suffix; the code sees the attribute through hasattr only and emits the bare
key with no suffix. -/
theorem claim_C6_counterexample :
    capFalseAll.scope = some scopeFalseAll
    ∧ scopeFalseAll.typeName ≠ "AllScope"
    ∧ scopeFalseAll.hasAll = true
    ∧ scopeFalseAll.allValue = false
    ∧ extract_capability_key capFalseAll = CapKeys.single "time_series:read" :=
  ⟨rfl, by decide, rfl, rfl, by decide⟩

/-- C6 witness: a grant with a null scope produces bare resource:action keys. -/
theorem claim_C6_witness :
    capability_key_list tsCapAll =
      (sorted_action_names [actWrite, actRead, actRead]).map
        (fun a => extract_resource_name tsCapAll.typeName ++ ":" ++ a) :=
  (claim_C6 tsCapAll [actWrite, actRead, actRead] rfl (by decide)).mpr (Or.inl rfl)

/-! ## Claim C7 -/

/-- The dataframe of a nonempty group list is built without error. -/
theorem build_customer_dataframe_of_ne_nil (groups : List Group) (u : List String)
    (h : groups ≠ []) :
    build_customer_dataframe groups u =
      some { header := group_cols ++ u,
             rows := groups.map (fun g =>
               (group_cols ++ u).map (lookupD (build_group_row g u))) } := by
  unfold build_customer_dataframe
  have hne : (groups.map (fun g => build_group_row g u)).isEmpty = false := by
    cases groups with
    | nil => exact absurd rfl h
    | cons a l => rfl
  simp only [hne, Bool.false_eq_true, if_false]
  rw [List.map_map]
  rfl

/-- A lossless dump/load pair reconstructs every dumped capability list. -/
theorem load_all_map_dump {D : Type} (dump : Capability → D) (load : D → Option Capability)
    (h : ∀ c, load (dump c) = some c) :
    ∀ l : List Capability, load_all load (l.map dump) = some l := by
  intro l
  induction l with
  | nil => rfl
  | cons c cs ih =>
    simp only [List.map_cons]
    unfold load_all
    rw [h c, ih]

/-- C7 (amended): for every customer map in which no fetched customer has an
empty group list, the backup produces a record, and restoring it
reconstructs, for every customer and group, exactly the original
capabilities, hence the same canonical key set, assuming the external
dump/load pair is lossless (the JSON layer between them is modelled as the
identity on the record). The original claim covered every mapping, but a
fetched customer with zero groups makes the dataframe step raise before the
record is serialized; see the counterexample. -/
theorem claim_C7 {D : Type} (dump : Capability → D) (load : D → Option Capability)
    (h : ∀ c, load (dump c) = some c) (m : CustomerMap)
    (hne : ∀ p ∈ m, ∀ gs, p.2 = some gs → gs ≠ []) :
    ∃ record, backup_groups_to_archive dump m = some record
      ∧ restore_groups_from_backup load record
          = m.map (fun p => (p.1, (p.2.getD []).map (fun g => (g.id, some g.capabilities))))
      ∧ ∀ p ∈ m, ∀ gs, p.2 = some gs → ∀ g ∈ gs,
          ∃ caps, load_all load (g.capabilities.map dump) = some caps
            ∧ ∀ k, (k ∈ (caps.map iter_capability_keys).flatten ↔ k ∈ group_keys g) := by
  have hany : (m.any (fun p =>
      match p.2 with
      | some gs => (build_customer_dataframe gs (collect_all_capabilities m)).isNone
      | Option.none => false)) = false := by
    rw [List.any_eq_false]
    intro p hp
    cases hgs : p.2 with
    | none => simp [hgs]
    | some gs =>
      simp only [hgs]
      rw [build_customer_dataframe_of_ne_nil gs _ (hne p hp gs hgs)]
      simp
  refine ⟨m.map (fun p => (p.1,
      match p.2 with
      | Option.none => []
      | some gs => gs.map (fun g => (⟨g.id, g.name, g.capabilities.map dump⟩ : GroupRecord D)))),
    ?_, ?_, ?_⟩
  · unfold backup_groups_to_archive
    simp only [hany, Bool.false_eq_true, if_false]
  · unfold restore_groups_from_backup
    rw [List.map_map]
    apply List.map_congr_left
    intro p _
    simp only [Function.comp_apply]
    cases hp : p.2 with
    | none => rfl
    | some gs =>
      rw [List.map_map]
      simp only [Option.getD_some]
      congr 1
      apply List.map_congr_left
      intro g _
      simp only [Function.comp_apply]
      rw [load_all_map_dump dump load h]
  · intro p _ gs _ g _
    exact ⟨g.capabilities, load_all_map_dump dump load h g.capabilities, fun k => Iff.rfl⟩

/-- C7 counterexample: a map with one fetched customer whose group list is
empty; building its dataframe raises before any record is serialized, so the
backup yields no record and the claimed round trip cannot even start. -/
theorem claim_C7_counterexample :
    backup_groups_to_archive (fun c => c) [("acme", some ([] : List Group))] = Option.none := by
  decide

/-- The customer map used by several witnesses. -/
def mEx : CustomerMap := [("acme", some [g1]), ("beta", Option.none)]

/-- C7 witness: on a concrete map with one nonempty fetched customer and one
failed customer, the backup yields a record whose restore under the identity
dump/load pair reproduces every group with its original capabilities. -/
theorem claim_C7_witness :
    backup_groups_to_archive id mEx ≠ Option.none
    ∧ (backup_groups_to_archive id mEx).map (restore_groups_from_backup some)
        = some (mEx.map (fun p =>
            (p.1, (p.2.getD []).map (fun g => (g.id, some g.capabilities))))) := by
  obtain ⟨record, hrec, hrest, _⟩ := claim_C7 id some (fun _ => rfl) mEx (by
    intro p hp gs hgs hnil
    rw [hnil] at hgs
    simp only [mEx, List.mem_cons] at hp
    rcases hp with rfl | rfl | hp0
    · simp at hgs
    · simp at hgs
    · exact absurd hp0 (List.not_mem_nil p))
  constructor
  · rw [hrec]
    exact fun hcontra => Option.noConfusion hcontra
  · rw [hrec]
    show some (restore_groups_from_backup some record) = _
    rw [hrest]

/-! ## Claim C8 -/

theorem find_map_update (d : List (String × String)) (k v : String) :
    (d.map (fun p => if p.1 = k then (k, v) else p)).find? (fun p => p.1 = k)
      = if d.any (fun p => p.1 = k) then some (k, v) else Option.none := by
  induction d with
  | nil => rfl
  | cons p d ih =>
    simp only [List.map_cons, List.any_cons]
    by_cases hp : p.1 = k
    · rw [if_pos hp]
      rw [List.find?_cons_of_pos _ (by simp)]
      simp [hp]
    · rw [if_neg hp]
      rw [List.find?_cons_of_neg _ (by simp [hp])]
      rw [ih]
      have hd : decide (p.1 = k) = false := by simp [hp]
      simp only [hd, Bool.false_or]

theorem lookupD_dictInsert_self (d : List (String × String)) (k v : String) :
    lookupD (dictInsert d k v) k = v := by
  unfold lookupD dictInsert
  by_cases h : d.any (fun p => p.1 = k)
  · rw [if_pos h, find_map_update, if_pos h]
    rfl
  · rw [if_neg h]
    have hnone : d.find? (fun p => p.1 = k) = Option.none := by
      rw [List.find?_eq_none]
      intro x hx hpx
      exact h (List.any_eq_true.mpr ⟨x, hx, hpx⟩)
    rw [List.find?_append, hnone]
    simp

theorem find_map_update_other (d : List (String × String)) (k v k' : String) (hk : k' ≠ k) :
    (d.map (fun p => if p.1 = k then (k, v) else p)).find? (fun p => p.1 = k')
      = d.find? (fun p => p.1 = k') := by
  induction d with
  | nil => rfl
  | cons p d ih =>
    simp only [List.map_cons]
    by_cases hp : p.1 = k
    · rw [if_pos hp]
      rw [List.find?_cons_of_neg _ (by
        simp only [decide_eq_true_eq]
        exact fun h => hk h.symm)]
      rw [List.find?_cons_of_neg _ (by
        simp only [decide_eq_true_eq, hp]
        exact fun h => hk h.symm)]
      exact ih
    · rw [if_neg hp]
      by_cases hp' : p.1 = k'
      · rw [List.find?_cons_of_pos _ (by simp [hp']), List.find?_cons_of_pos _ (by simp [hp'])]
      · rw [List.find?_cons_of_neg _ (by simp [hp']), List.find?_cons_of_neg _ (by simp [hp'])]
        exact ih

theorem lookupD_dictInsert_other (d : List (String × String)) (k v k' : String)
    (hk : k' ≠ k) : lookupD (dictInsert d k v) k' = lookupD d k' := by
  unfold lookupD dictInsert
  by_cases h : d.any (fun p => p.1 = k)
  · rw [if_pos h, find_map_update_other d k v k' hk]
  · rw [if_neg h, List.find?_append]
    have : List.find? (fun p => p.1 = k') [(k, v)] = Option.none := by
      rw [List.find?_cons_of_neg _ (by
        simp only [decide_eq_true_eq]
        exact fun h2 => hk h2.symm)]
      rfl
    rw [this]
    cases d.find? (fun p => p.1 = k') <;> rfl

theorem lookup_row_foldl_not_mem (v : String → String) (u : List String) :
    ∀ (d : List (String × String)) (c : String), c ∉ u →
    lookupD (u.foldl (fun row cap => dictInsert row cap (v cap)) d) c = lookupD d c := by
  induction u with
  | nil => intro d c _; rfl
  | cons x u ih =>
    intro d c hc
    simp only [List.foldl_cons]
    rw [ih _ c (fun hm => hc (List.mem_cons_of_mem x hm))]
    exact lookupD_dictInsert_other d x (v x) c (fun he => hc (he ▸ List.mem_cons_self x u))

theorem lookup_row_foldl_mem (v : String → String) (u : List String) :
    ∀ (d : List (String × String)) (c : String), c ∈ u →
    lookupD (u.foldl (fun row cap => dictInsert row cap (v cap)) d) c = v c := by
  induction u with
  | nil => intro d c hc; exact absurd hc (List.not_mem_nil c)
  | cons x u ih =>
    intro d c hc
    simp only [List.foldl_cons]
    by_cases hcu : c ∈ u
    · exact ih _ c hcu
    · have hcx : c = x := by
        rcases List.mem_cons.mp hc with h | h
        · exact h
        · exact absurd h hcu
      subst hcx
      rw [lookup_row_foldl_not_mem v u _ c hcu]
      exact lookupD_dictInsert_self d c (v c)

/-- A capability column of a row holds Y or N according to key membership. -/
theorem build_group_row_mem (g : Group) (u : List String) (c : String) (hc : c ∈ u) :
    lookupD (build_group_row g u) c = (if c ∈ group_keys g then "Y" else "N") := by
  unfold build_group_row
  exact lookup_row_foldl_mem _ u _ c hc

/-- A column outside the universe reads from the identity dict. -/
theorem build_group_row_not_mem (g : Group) (u : List String) (c : String) (hc : c ∉ u) :
    lookupD (build_group_row g u) c =
      lookupD [("Group Name", g.name), ("Group ID", g.id), ("Source ID", g.source_id)] c := by
  unfold build_group_row
  exact lookup_row_foldl_not_mem _ u _ c hc

/-- C8 (amended): for every nonempty sequence of groups (witnessed by any
present index) the dataframe is built without error; it has the identity
columns then the universe columns in order, one row per group in input order
(none dropped), the row of a group with no capabilities holds N in every
capability column, and when the universe does not collide with the identity
column names the row starts with the group identity values. The original
claim covered the empty sequence too, where the column selection on a
zero-row pandas frame raises; see the counterexample. -/
theorem claim_C8 (groups : List Group) (u : List String) (i : Nat) (g : Group)
    (hi : groups[i]? = some g) :
    build_customer_dataframe groups u =
      some { header := group_cols ++ u,
             rows := groups.map (fun g2 =>
               (group_cols ++ u).map (lookupD (build_group_row g2 u))) }
    ∧ (groups.map (fun g2 =>
        (group_cols ++ u).map (lookupD (build_group_row g2 u)))).length = groups.length
    ∧ (groups.map (fun g2 =>
        (group_cols ++ u).map (lookupD (build_group_row g2 u))))[i]? =
        some ((group_cols ++ u).map (lookupD (build_group_row g u)))
    ∧ (g.capabilities = [] →
        ((group_cols ++ u).map (lookupD (build_group_row g u))).drop 3 =
          u.map (fun _ => "N"))
    ∧ ((∀ c ∈ u, c ∉ group_cols) →
        ((group_cols ++ u).map (lookupD (build_group_row g u))).take 3 =
          [g.name, g.id, g.source_id]) := by
  refine ⟨?_, by simp, ?_, ?_, ?_⟩
  · apply build_customer_dataframe_of_ne_nil
    intro hgroups
    rw [hgroups] at hi
    simp at hi
  · rw [List.getElem?_map, hi]
    rfl
  · intro hcaps
    rw [List.map_append]
    have h3 : (group_cols.map (lookupD (build_group_row g u))).length = 3 := rfl
    rw [← h3, List.drop_left]
    apply List.map_congr_left
    intro c hc
    rw [build_group_row_mem g u c hc]
    have hgk : group_keys g = [] := by
      unfold group_keys
      rw [hcaps]
      rfl
    rw [hgk]
    simp
  · intro hdisj
    rw [List.map_append]
    have h3 : (group_cols.map (lookupD (build_group_row g u))).length = 3 := rfl
    rw [← h3, List.take_left]
    show [lookupD (build_group_row g u) "Group Name",
          lookupD (build_group_row g u) "Group ID",
          lookupD (build_group_row g u) "Source ID"] = _
    have hn : "Group Name" ∉ u := fun hm => (hdisj _ hm) (by decide)
    have hgid : "Group ID" ∉ u := fun hm => (hdisj _ hm) (by decide)
    have hsid : "Source ID" ∉ u := fun hm => (hdisj _ hm) (by decide)
    rw [build_group_row_not_mem g u _ hn, build_group_row_not_mem g u _ hgid,
        build_group_row_not_mem g u _ hsid]
    unfold lookupD
    simp [List.find?]

/-- C8 counterexample: for the empty group sequence the zero-row pandas
frame has no columns and the column selection raises, so no table with zero
rows is produced, although the claim quantifies over every sequence of
groups. -/
theorem claim_C8_counterexample :
    build_customer_dataframe [] ["time_series:read"] = Option.none := rfl

/-- A group with no capabilities, used by the matrix witness. -/
def gEmpty : Group := ⟨"empty", "2", "", []⟩

/-- C8 witness: a one-group frame with one universe column is built, the row
is present at index zero, its capability column is N, and its identity cells
are the group identity. -/
theorem claim_C8_witness :
    build_customer_dataframe [gEmpty] ["time_series:read"] =
      some { header := group_cols ++ ["time_series:read"],
             rows := [gEmpty].map (fun g2 =>
               (group_cols ++ ["time_series:read"]).map
                 (lookupD (build_group_row g2 ["time_series:read"]))) }
    ∧ ((group_cols ++ ["time_series:read"]).map
        (lookupD (build_group_row gEmpty ["time_series:read"]))).drop 3 =
        ["time_series:read"].map (fun _ => "N")
    ∧ ((group_cols ++ ["time_series:read"]).map
        (lookupD (build_group_row gEmpty ["time_series:read"]))).take 3 =
        [gEmpty.name, gEmpty.id, gEmpty.source_id] :=
  ⟨(claim_C8 [gEmpty] ["time_series:read"] 0 gEmpty rfl).1,
   (claim_C8 [gEmpty] ["time_series:read"] 0 gEmpty rfl).2.2.2.1 rfl,
   (claim_C8 [gEmpty] ["time_series:read"] 0 gEmpty rfl).2.2.2.2 (by decide)⟩

/-! ## Claim C9 -/

theorem strLtB_irrefl : ∀ l : List Char, strLtB l l = false := by
  intro l
  induction l with
  | nil => rfl
  | cons c cs ih =>
    unfold strLtB
    rw [if_neg (Nat.lt_irrefl _), if_neg (Nat.lt_irrefl _)]
    exact ih

theorem strLtB_append_suffix : ∀ (t1 t2 s : List Char), t1.length = t2.length →
    strLtB (t1 ++ s) (t2 ++ s) = strLtB t1 t2
  | [], [], s, _ => by
    simp only [List.nil_append]
    rw [strLtB_irrefl]
    rfl
  | [], _ :: _, _, h => by simp at h
  | _ :: _, [], _, h => by simp at h
  | a :: as, b :: bs, s, h => by
    simp only [List.cons_append]
    show (if a.toNat < b.toNat then true else if b.toNat < a.toNat then false
          else strLtB (as ++ s) (bs ++ s)) = _
    rw [strLtB_append_suffix as bs s (by simpa using h)]
    rfl

theorem strLtB_append_same (t1 t2 s : List Char) (hlen : t1.length = t2.length) :
    ∀ p : List Char, strLtB (p ++ (t1 ++ s)) (p ++ (t2 ++ s)) = strLtB t1 t2 := by
  intro p
  induction p with
  | nil =>
    simp only [List.nil_append]
    exact strLtB_append_suffix t1 t2 s hlen
  | cons c p ih =>
    simp only [List.cons_append]
    show (if c.toNat < c.toNat then true else if c.toNat < c.toNat then false
          else strLtB (p ++ (t1 ++ s)) (p ++ (t2 ++ s))) = _
    rw [if_neg (Nat.lt_irrefl _), if_neg (Nat.lt_irrefl _), ih]

/-- Comparing two backup file names with equal-length timestamps is comparing
the timestamps. -/
theorem keyLe_of_middle (t1 t2 : String) (hlen : t1.data.length = t2.data.length)
    (h : keyLe ("groups_backup_" ++ t2 ++ ".json") ("groups_backup_" ++ t1 ++ ".json")) :
    keyLe t2 t1 := by
  unfold keyLe pyLt at h ⊢
  rw [String.data_append, String.data_append, String.data_append, String.data_append] at h
  rw [List.append_assoc, List.append_assoc] at h
  rw [strLtB_append_same t1.data t2.data _ hlen] at h
  exact h

theorem pairwise_filterMap {α β : Type} (R : α → α → Prop) (S : β → β → Prop)
    (f : α → Option β)
    (hf : ∀ a b x y, R a b → f a = some x → f b = some y → S x y) :
    ∀ l : List α, List.Pairwise R l → List.Pairwise S (l.filterMap f) := by
  intro l
  induction l with
  | nil => intro _; exact List.Pairwise.nil
  | cons a l ih =>
    intro hl
    obtain ⟨h1, h2⟩ := List.pairwise_cons.mp hl
    cases hfa : f a with
    | none =>
      rw [List.filterMap_cons_none hfa]
      exact ih h2
    | some x =>
      rw [List.filterMap_cons_some hfa]
      refine List.Pairwise.cons ?_ (ih h2)
      intro y hy
      obtain ⟨b, hb, hfb⟩ := List.mem_filterMap.mp hy
      exact hf a b x y (h1 b hb) hfa hfb

/-- Membership in the discovered backup pairs. -/
theorem mem_list_backups (listing : List String) (x j t : String) :
    (x, j, t) ∈ list_backups listing ↔
      (j ∈ listing ∧ globMatch j = true ∧ x = stemOf j ++ ".xlsx" ∧ x ∈ listing
        ∧ t = tsOf j) := by
  unfold list_backups
  rw [List.mem_filterMap]
  constructor
  · rintro ⟨j2, hj2, hf⟩
    by_cases hex : (stemOf j2 ++ ".xlsx") ∈ listing
    · rw [if_pos hex] at hf
      rw [Option.some.injEq, Prod.mk.injEq, Prod.mk.injEq] at hf
      obtain ⟨hx, hj, ht⟩ := hf
      rw [hj] at hj2 hex hx ht
      have hmem : j ∈ listing.filter globMatch := by
        rw [List.mem_reverse] at hj2
        exact ((List.perm_insertionSort keyLe _).mem_iff).mp hj2
      rw [List.mem_filter] at hmem
      exact ⟨hmem.1, hmem.2, hx.symm, hx ▸ hex, ht.symm⟩
    · rw [if_neg hex] at hf
      exact Option.noConfusion hf
  · rintro ⟨hj, hg, hx, hxmem, ht⟩
    refine ⟨j, ?_, ?_⟩
    · rw [List.mem_reverse, (List.perm_insertionSort keyLe _).mem_iff, List.mem_filter]
      exact ⟨hj, hg⟩
    · rw [if_pos (hx ▸ hxmem), hx, ht]

/-- The discovered pairs are sorted descending by record file name. -/
theorem list_backups_sorted (listing : List String) :
    List.Pairwise (fun a b : String × String × String => keyLe b.2.1 a.2.1)
      (list_backups listing) := by
  unfold list_backups
  apply pairwise_filterMap (fun a b : String => keyLe b a) _ _ ?_ _ ?_
  · intro a b x y hR hfa hfb
    by_cases hexa : (stemOf a ++ ".xlsx") ∈ listing
    · by_cases hexb : (stemOf b ++ ".xlsx") ∈ listing
      · rw [if_pos hexa, Option.some.injEq] at hfa
        rw [if_pos hexb, Option.some.injEq] at hfb
        rw [← hfa, ← hfb]
        exact hR
      · rw [if_neg hexb] at hfb
        exact Option.noConfusion hfb
    · rw [if_neg hexa] at hfa
      exact Option.noConfusion hfa
  · rw [List.pairwise_reverse]
    exact List.sorted_insertionSort keyLe (listing.filter globMatch)

/-- When the timestamps embed in the names and share one length, the pairs
are also sorted descending by timestamp. -/
theorem list_backups_ts_sorted (listing : List String)
    (hnames : ∀ e ∈ list_backups listing, "groups_backup_" ++ e.2.2 ++ ".json" = e.2.1)
    (hlen : ∀ e1 ∈ list_backups listing, ∀ e2 ∈ list_backups listing,
      e1.2.2.data.length = e2.2.2.data.length) :
    List.Pairwise (fun a b : String × String × String => keyLe b.2.2 a.2.2)
      (list_backups listing) := by
  have hs := list_backups_sorted listing
  apply List.Pairwise.imp_of_mem ?_ hs
  intro a b ha hb hR
  apply keyLe_of_middle a.2.2 b.2.2 (hlen a ha b hb)
  rw [hnames a ha, hnames b hb]
  exact hR

/-- C9 (amended): list_backups returns exactly the triples whose record file
matches the backup glob and whose same-stem spreadsheet exists in the
directory (an unpaired record or export is silently excluded), ordered
descending by record file name; whenever the reported timestamps are the
name between the fixed stem and suffix and share one length, as the
generated fixed-width timestamps do, this order is also descending by
timestamp. The original claim asserted descending-timestamp order for every
directory; see the counterexample with timestamps of different lengths. -/
theorem claim_C9 (listing : List String) :
    (∀ x j t, ((x, j, t) ∈ list_backups listing ↔
       (j ∈ listing ∧ globMatch j = true ∧ x = stemOf j ++ ".xlsx" ∧ x ∈ listing
         ∧ t = tsOf j)))
    ∧ List.Pairwise (fun a b : String × String × String => keyLe b.2.1 a.2.1)
        (list_backups listing)
    ∧ ((∀ e ∈ list_backups listing, "groups_backup_" ++ e.2.2 ++ ".json" = e.2.1) →
       (∀ e1 ∈ list_backups listing, ∀ e2 ∈ list_backups listing,
          e1.2.2.data.length = e2.2.2.data.length) →
       List.Pairwise (fun a b : String × String × String => keyLe b.2.2 a.2.2)
         (list_backups listing)) :=
  ⟨fun x j t => mem_list_backups listing x j t, list_backups_sorted listing,
   fun h1 h2 => list_backups_ts_sorted listing h1 h2⟩

/-- C9 counterexample: a directory with two complete pairs whose timestamps
are A and A!; the code orders the pairs by descending file name, which puts
the strictly smaller timestamp A first, so the result is not in descending
timestamp order. -/
theorem claim_C9_counterexample :
    list_backups ["groups_backup_A.json", "groups_backup_A.xlsx",
                  "groups_backup_A!.json", "groups_backup_A!.xlsx"]
      = [("groups_backup_A.xlsx", "groups_backup_A.json", "A"),
         ("groups_backup_A!.xlsx", "groups_backup_A!.json", "A!")]
    ∧ pyLt "A" "A!" = true :=
  ⟨by decide, by decide⟩

/-- C9 witness: on a directory with one complete pair, one unpaired record
and one unpaired export, exactly the complete pair is returned, and the
equal-length timestamp ordering holds. -/
theorem claim_C9_witness :
    (("groups_backup_2026-02-18_14-30-00.xlsx", "groups_backup_2026-02-18_14-30-00.json",
       "2026-02-18_14-30-00") ∈
      list_backups ["groups_backup_2026-02-18_14-30-00.json",
                    "groups_backup_2026-02-18_14-30-00.xlsx",
                    "groups_backup_2026-02-20_10-00-00.json",
                    "groups_backup_2026-02-21_10-00-00.xlsx"])
    ∧ List.Pairwise (fun a b : String × String × String => keyLe b.2.2 a.2.2)
        (list_backups ["groups_backup_2026-02-18_14-30-00.json",
                       "groups_backup_2026-02-18_14-30-00.xlsx",
                       "groups_backup_2026-02-20_10-00-00.json",
                       "groups_backup_2026-02-21_10-00-00.xlsx"]) :=
  ⟨((claim_C9 _).1 _ _ _).mpr ⟨by decide, by decide, by decide, by decide, by decide⟩,
   (claim_C9 _).2.2 (by decide) (by decide)⟩

end Cognite
